import Mathlib

/-!
Verification of the hoop-mission autonomous-mode package.

The Python modes (`PlanRoute`, `CenterInImage`, `CommitTraverse`,
`LaunchAndScan`, `GoToPreApproach`) are shallowly embedded below.  Real
(float) arithmetic is modelled with `ℚ`; the trigonometric and square-root
library calls (`math.cos`, `math.sin`, `math.hypot`) are abstracted as
function parameters `cosF sinF sqrtF : ℚ → ℚ`, constrained by hypotheses
exactly where a theorem needs their defining properties.  Distance
comparisons and thresholds use squared Euclidean distance, which orders and
thresholds exactly as the source's `math.dist` does for nonnegative bounds.
Mode status strings are kept as the literal `"complete"` / `"continue"`
returned by the source.
-/

/-- A 3D point, the `(x, y, z)` tuples of the source. -/
abbrev Point : Type := ℚ × ℚ × ℚ

/-- A discovered hoop record: the `{'position': …, 'bearing': …}` dicts fed to
`PlanRoute.on_enter`.  `bearing = none` models a dict without the key. -/
structure Hoop where
  position : Point
  bearing : Option ℚ
deriving DecidableEq

/-- One planned visit, the `{'hoop': …, 'pre_approach': …, 'hoop_pos': …}`
dicts that `PlanRoute.on_enter` appends to `planned`. -/
structure RouteEntry where
  hoop : Hoop
  pre_approach : Point
  hoop_pos : Point
deriving DecidableEq

/-- Squared Euclidean distance between two 3D points.  The source compares
`math.dist` values; squaring both sides of every comparison is
order-preserving, so all orderings and thresholds below match the source. -/
def distSq (a b : Point) : ℚ :=
  (a.1 - b.1) ^ 2 + (a.2.1 - b.2.1) ^ 2 + (a.2.2 - b.2.2) ^ 2

/-- Insert `x` into `l`, placing it before the first element of strictly
larger key; on equal keys the inserted (earlier-in-input) element goes
first.  Building block for the stable sort below. -/
def insertByKey (key : Hoop → ℚ) (x : Hoop) : List Hoop → List Hoop
  | [] => [x]
  | y :: ys => if key x ≤ key y then x :: y :: ys else y :: insertByKey key x ys

/-- Stable sort by `key`, ascending: models Python's stable
`list.sort(key=…)` in `PlanRoute.on_enter` (any two stable sorts under the
same key agree element-for-element). -/
def sortByKey (key : Hoop → ℚ) : List Hoop → List Hoop
  | [] => []
  | x :: xs => insertByKey key x (sortByKey key xs)

/-- The selection loop of `PlanRoute.on_enter` (source lines 69–75):
`while remaining and len(order) < self.max_targets: remaining.sort(key=dist
to cur_pos); chosen = remaining.pop(0); order.append(chosen); cur_pos =
chosen['pos']`.  The fuel is `max_targets`; the loop also stops when
`remaining` is exhausted. -/
def planOrder (maxT : Nat) (cur : Point) (remaining : List Hoop) : List Hoop :=
  match maxT with
  | 0 => []
  | m + 1 =>
    match sortByKey (fun h => distSq cur h.position) remaining with
    | [] => []
    | c :: rest => c :: planOrder m c.position rest

/-- The first element of `l` attaining the minimum key, if any. -/
def firstMinBy (key : Hoop → ℚ) (l : List Hoop) : Option Hoop :=
  l.find? (fun x => l.all (fun y => decide (key x ≤ key y)))

/-- Modelled from the spec: greedy nearest-neighbor where ties are broken
"stably in favor of the first-encountered hoop", i.e. each step removes the
earliest remaining hoop (in original input order) attaining minimum distance
to the reference point.  Written for comparison against `planOrder`. -/
def specGreedyOrder (maxT : Nat) (cur : Point) (remaining : List Hoop) : List Hoop :=
  match maxT with
  | 0 => []
  | m + 1 =>
    match firstMinBy (fun h => distSq cur h.position) remaining with
    | none => []
    | some c => c :: specGreedyOrder m c.position (remaining.erase c)

/-- Approach-normal computation of `PlanRoute.on_enter` (source lines
80–89): a hoop with a bearing gets `(cos b, sin b, 0)`; otherwise the vector
from `home_pose`'s (x,y) to the hoop's (x,y) is divided by
`math.hypot(vx, vy) or 1.0` (so a zero-length vector is divided by 1). -/
def approachNormal (cosF sinF sqrtF : ℚ → ℚ) (home : Point) (h : Hoop) : Point :=
  match h.bearing with
  | some b => (cosF b, sinF b, 0)
  | none =>
    let vx := h.position.1 - home.1
    let vy := h.position.2.1 - home.2.1
    let hyp := sqrtF (vx ^ 2 + vy ^ 2)
    let d := if hyp = 0 then 1 else hyp
    (vx / d, vy / d, 0)

/-- One route entry of `PlanRoute.on_enter` (source lines 78–95):
`pre_x = hx - normal[0]*pre_approach_dist`, `pre_y` likewise, `pre_z = hz`. -/
def routeEntryOf (cosF sinF sqrtF : ℚ → ℚ) (home : Point) (preDist : ℚ) (h : Hoop) :
    RouteEntry :=
  let n := approachNormal cosF sinF sqrtF home h
  { hoop := h
    pre_approach :=
      (h.position.1 - n.1 * preDist, h.position.2.1 - n.2.1 * preDist, h.position.2.2)
    hoop_pos := h.position }

/-- The `planned` list built from the selected order. -/
def plannedRoute (cosF sinF sqrtF : ℚ → ℚ) (home : Point) (preDist : ℚ)
    (order : List Hoop) : List RouteEntry :=
  order.map (routeEntryOf cosF sinF sqrtF home preDist)

/-- Input selection of `PlanRoute.on_enter`: an explicitly supplied
(non-empty) `points` list takes priority over `hoops_discovered`; points carry
no bearing.  `[]` models both `None` and an empty list (both falsy). -/
def selectHoops (points : List Point) (discovered : List Hoop) : List Hoop :=
  match points with
  | [] => discovered
  | p :: ps => (p :: ps).map (fun q => { position := q, bearing := none })

/-- `PlanRoute.on_enter` end to end: the route written to
`uav.planned_route`.  A missing `local_position` or `home_pose` defaults to
`(0,0,0)` as in the source. -/
def planRouteOnEnter (cosF sinF sqrtF : ℚ → ℚ) (maxT : Nat) (preDist : ℚ)
    (points : List Point) (discovered : List Hoop) (cur home : Option Point) :
    List RouteEntry :=
  plannedRoute cosF sinF sqrtF (home.getD (0, 0, 0)) preDist
    (planOrder maxT (cur.getD (0, 0, 0)) (selectHoops points discovered))

/-- `PlanRoute.on_update` issues no vehicle command (source: `return`). -/
def planRouteOnUpdate : Option Point := none

/-- `PlanRoute.check_status` always returns `"complete"`. -/
def planRouteCheckStatus : String := "complete"

/-! ### Sorting lemmas for the planner loop -/

lemma insertByKey_perm (key : Hoop → ℚ) (x : Hoop) (l : List Hoop) :
    (insertByKey key x l).Perm (x :: l) := by
  induction l with
  | nil => exact List.Perm.refl _
  | cons y ys ih =>
    rw [insertByKey]
    split
    · exact List.Perm.refl _
    · exact (ih.cons y).trans (List.Perm.swap x y ys)

lemma sortByKey_perm (key : Hoop → ℚ) (l : List Hoop) : (sortByKey key l).Perm l := by
  induction l with
  | nil => exact List.Perm.refl _
  | cons x xs ih => exact (insertByKey_perm key x _).trans (ih.cons x)

lemma sortByKey_eq_nil {key : Hoop → ℚ} {l : List Hoop}
    (h : sortByKey key l = []) : l = [] := by
  have p := sortByKey_perm key l
  rw [h] at p
  exact p.symm.eq_nil

lemma sortByKey_head_le (key : Hoop → ℚ) :
    ∀ (l : List Hoop) (c : Hoop) (rest : List Hoop),
      sortByKey key l = c :: rest → ∀ x ∈ l, key c ≤ key x := by
  intro l
  induction l with
  | nil => intro c rest h x hx; simp [sortByKey] at h
  | cons a as ih =>
    intro c rest h x hx
    rw [sortByKey] at h
    cases hs : sortByKey key as with
    | nil =>
      have has : as = [] := sortByKey_eq_nil hs
      rw [hs] at h
      simp only [insertByKey] at h
      injection h with h1 _
      subst h1
      subst has
      simp only [List.mem_cons, List.not_mem_nil, or_false] at hx
      subst hx
      exact le_refl _
    | cons b bs =>
      rw [hs] at h
      simp only [insertByKey] at h
      by_cases hab : key a ≤ key b
      · rw [if_pos hab] at h
        injection h with h1 _
        subst h1
        rcases List.mem_cons.mp hx with rfl | hx'
        · exact le_refl _
        · exact le_trans hab (ih b bs hs x hx')
      · rw [if_neg hab] at h
        injection h with h1 _
        subst h1
        rcases List.mem_cons.mp hx with rfl | hx'
        · exact le_of_not_le hab
        · exact ih b bs hs x hx'

lemma findFirstCongr (p q : Hoop → Bool) :
    ∀ (l : List Hoop) (b : Hoop), l.find? p = some b → q b = true →
      (∀ x ∈ l, q x = true → p x = true) → l.find? q = some b := by
  intro l
  induction l with
  | nil => intro b h _ _; simp [List.find?] at h
  | cons x xs ih =>
    intro b h hqb himp
    cases hp : p x with
    | true =>
      rw [List.find?_cons_of_pos _ hp] at h
      injection h with hb
      subst hb
      exact List.find?_cons_of_pos _ hqb
    | false =>
      rw [List.find?_cons_of_neg _ (by simp [hp])] at h
      have hqx : q x = false := by
        cases hqx : q x with
        | false => rfl
        | true =>
          have := himp x (List.mem_cons_self x xs) hqx
          rw [hp] at this
          exact absurd this (by simp)
      rw [List.find?_cons_of_neg _ (by simp [hqx])]
      exact ih b h hqb (fun y hy => himp y (List.mem_cons_of_mem x hy))

lemma sortByKey_head_firstMin (key : Hoop → ℚ) :
    ∀ (l : List Hoop) (c : Hoop) (rest : List Hoop),
      sortByKey key l = c :: rest → firstMinBy key l = some c := by
  intro l
  induction l with
  | nil => intro c rest h; simp [sortByKey] at h
  | cons a as ih =>
    intro c rest h
    rw [sortByKey] at h
    cases hs : sortByKey key as with
    | nil =>
      have has : as = [] := sortByKey_eq_nil hs
      rw [hs] at h
      simp only [insertByKey] at h
      injection h with h1 _
      subst h1
      subst has
      simp [firstMinBy, List.find?]
    | cons b bs =>
      rw [hs] at h
      simp only [insertByKey] at h
      by_cases hab : key a ≤ key b
      · rw [if_pos hab] at h
        injection h with h1 _
        subst h1
        have hmin : ∀ y ∈ as, key a ≤ key y :=
          fun y hy => le_trans hab (sortByKey_head_le key as b bs hs y hy)
        have hpa : ((a :: as).all fun y => decide (key a ≤ key y)) = true := by
          simp only [List.all_eq_true, decide_eq_true_eq]
          intro y hy
          rcases List.mem_cons.mp hy with rfl | hy'
          · exact le_refl _
          · exact hmin y hy'
        exact List.find?_cons_of_pos _ hpa
      · rw [if_neg hab] at h
        injection h with h1 _
        subst h1
        have hbm : b ∈ as := by
          have := (sortByKey_perm key as).subset
          rw [hs] at this
          exact this (List.mem_cons_self b bs)
        have hble : ∀ y ∈ as, key b ≤ key y := sortByKey_head_le key as b bs hs
        have hba : key b ≤ key a := le_of_not_le hab
        have ihb := ih b bs hs
        unfold firstMinBy at ihb ⊢
        have hqa : ((a :: as).all fun y => decide (key a ≤ key y)) = false := by
          cases hq : (a :: as).all fun y => decide (key a ≤ key y) with
          | false => rfl
          | true =>
            have := List.all_eq_true.mp hq b (List.mem_cons_of_mem a hbm)
            rw [decide_eq_true_eq] at this
            exact absurd this hab
        rw [List.find?_cons_of_neg _ (by simp [hqa])]
        refine findFirstCongr _ _ as b ihb ?_ ?_
        · simp only [List.all_eq_true, decide_eq_true_eq]
          intro y hy
          rcases List.mem_cons.mp hy with rfl | hy'
          · exact hba
          · exact hble y hy'
        · intro x hx hqx
          simp only [List.all_eq_true, decide_eq_true_eq] at hqx ⊢
          intro y hy
          exact hqx y (List.mem_cons_of_mem a hy)

lemma planOrder_succ (m : Nat) (cur : Point) (rem : List Hoop) :
    planOrder (m + 1) cur rem =
      match sortByKey (fun h => distSq cur h.position) rem with
      | [] => []
      | c :: rest => c :: planOrder m c.position rest := rfl

lemma planOrder_length_le (maxT : Nat) (cur : Point) (hoops : List Hoop) :
    (planOrder maxT cur hoops).length ≤ maxT := by
  induction maxT generalizing cur hoops with
  | zero => simp [planOrder]
  | succ m ih =>
    rw [planOrder_succ]
    cases hs : sortByKey (fun h => distSq cur h.position) hoops with
    | nil => simp
    | cons c rest => simpa using ih c.position rest

lemma planOrder_subperm (maxT : Nat) (cur : Point) (hoops : List Hoop) :
    (planOrder maxT cur hoops).Subperm hoops := by
  induction maxT generalizing cur hoops with
  | zero => simp [planOrder]
  | succ m ih =>
    rw [planOrder_succ]
    cases hs : sortByKey (fun h => distSq cur h.position) hoops with
    | nil => simp
    | cons c rest =>
      have hperm : (c :: rest).Perm hoops := by
        have := sortByKey_perm (fun h => distSq cur h.position) hoops
        rw [hs] at this
        exact this
      exact ((List.subperm_cons c).mpr (ih c.position rest)).trans hperm.subperm

/-- The greedy-selection invariant: each appended hoop attains the minimum
distance to the current reference point among the remaining hoops, and the
reference point advances to the selected hoop's position. -/
inductive GreedyMin : Point → List Hoop → List Hoop → Prop where
  | nil (cur : Point) (rem : List Hoop) : GreedyMin cur rem []
  | cons (cur : Point) (rem rest : List Hoop) (c : Hoop) (order : List Hoop) :
      rem.Perm (c :: rest) →
      (∀ x ∈ rem, distSq cur c.position ≤ distSq cur x.position) →
      GreedyMin c.position rest order →
      GreedyMin cur rem (c :: order)

/-- C1 (counterexample): with hoops encountered in the order
`(2,0,0), (1,1,0), (1,0,0)` and current position `(0,0,0)`, the code first
selects `(1,0,0)`; the two remaining hoops are then tied in distance to it,
yet the code selects `(1,1,0)` (the order left by the previous sort) while
the first-encountered tied hoop is `(2,0,0)`: `PlanRoute`'s order differs
from the spec's first-encountered tie-break greedy order. -/
theorem planOrder_tiebreak_cex :
    planOrder 4 (0, 0, 0)
        [⟨(2, 0, 0), none⟩, ⟨(1, 1, 0), none⟩, ⟨(1, 0, 0), none⟩] =
      [⟨(1, 0, 0), none⟩, ⟨(1, 1, 0), none⟩, ⟨(2, 0, 0), none⟩] ∧
    specGreedyOrder 4 (0, 0, 0)
        [⟨(2, 0, 0), none⟩, ⟨(1, 1, 0), none⟩, ⟨(1, 0, 0), none⟩] =
      [⟨(1, 0, 0), none⟩, ⟨(2, 0, 0), none⟩, ⟨(1, 1, 0), none⟩] ∧
    distSq (1, 0, 0) (2, 0, 0) = distSq (1, 0, 0) (1, 1, 0) ∧
    planOrder 4 (0, 0, 0)
        [⟨(2, 0, 0), none⟩, ⟨(1, 1, 0), none⟩, ⟨(1, 0, 0), none⟩] ≠
      specGreedyOrder 4 (0, 0, 0)
        [⟨(2, 0, 0), none⟩, ⟨(1, 1, 0), none⟩, ⟨(1, 0, 0), none⟩] := by
  refine ⟨?_, ?_, ?_, ?_⟩
  · norm_num [planOrder, sortByKey, insertByKey, distSq]
  · norm_num [specGreedyOrder, firstMinBy, List.find?, List.all, List.erase, distSq]
  · norm_num [distSq]
  · norm_num [planOrder, specGreedyOrder, firstMinBy, sortByKey, insertByKey,
      List.find?, List.all, List.erase, distSq]

/-- C1 (amended): `PlanRoute` orders the route greedily: every selected hoop
attains the minimum Euclidean distance to the current reference point among
the hoops still remaining, and the reference point advances to the selected
hoop's position; the FIRST selection breaks ties in favor of the
first-encountered hoop (head of the route equals the earliest
minimum-distance hoop in input order), but later selections follow the order
left by the previous stable re-sort, which need not be encounter order. -/
theorem planOrder_greedy_min (maxT : Nat) (cur : Point) (hoops : List Hoop) :
    GreedyMin cur hoops (planOrder maxT cur hoops) ∧
    ∀ m : Nat, (planOrder (m + 1) cur hoops).head? =
      firstMinBy (fun h => distSq cur h.position) hoops := by
  constructor
  · induction maxT generalizing cur hoops with
    | zero => exact GreedyMin.nil cur hoops
    | succ m ih =>
      rw [planOrder_succ]
      cases hs : sortByKey (fun h => distSq cur h.position) hoops with
      | nil => exact GreedyMin.nil cur hoops
      | cons c rest =>
        refine GreedyMin.cons cur hoops rest c _ ?_ ?_ (ih c.position rest)
        · have p := sortByKey_perm (fun h => distSq cur h.position) hoops
          rw [hs] at p
          exact p.symm
        · exact fun x hx => sortByKey_head_le _ hoops c rest hs x hx
  · intro m
    rw [planOrder_succ]
    cases hs : sortByKey (fun h => distSq cur h.position) hoops with
    | nil =>
      have hl : hoops = [] := sortByKey_eq_nil hs
      subst hl
      simp [firstMinBy, List.find?]
    | cons c rest =>
      simp only [List.head?]
      exact (sortByKey_head_firstMin _ hoops c rest hs).symm

/-- C6: for every input hoop list, current position and `max_targets`, the
planned route has at most `max_targets` entries and uses no input hoop
record more often than the input provides it (in particular, distinct input
records are never repeated): the selected hoops form a sub-permutation of
the input. -/
theorem planRoute_bounded_no_repeat (cosF sinF sqrtF : ℚ → ℚ) (home : Point)
    (preDist : ℚ) (maxT : Nat) (cur : Point) (hoops : List Hoop) :
    (plannedRoute cosF sinF sqrtF home preDist (planOrder maxT cur hoops)).length ≤ maxT ∧
    ((plannedRoute cosF sinF sqrtF home preDist
        (planOrder maxT cur hoops)).map RouteEntry.hoop).Subperm hoops := by
  constructor
  · simpa [plannedRoute] using planOrder_length_le maxT cur hoops
  · have hmap : (plannedRoute cosF sinF sqrtF home preDist
        (planOrder maxT cur hoops)).map RouteEntry.hoop = planOrder maxT cur hoops := by
      simp only [plannedRoute, List.map_map]
      rw [show RouteEntry.hoop ∘ routeEntryOf cosF sinF sqrtF home preDist = id from rfl,
        List.map_id]
    rw [hmap]
    exact planOrder_subperm maxT cur hoops

/-- C4: for each selected hoop, a hoop with bearing θ gets approach normal
`(cos θ, sin θ, 0)`; otherwise the normal is the unit vector from the home
pose's (x,y) to the hoop's (x,y) (positive multiple of the offset whose
components are sound: `n·d = v` with `d = √(vx²+vy²) > 0`, and unit length);
a zero-length offset yields the fixed default `(0, 0, 0)` with no division
by zero; and the route entry's pre-approach point is
`hoop_position − normal·pre_approach_distance` with z unchanged.  `sqrtF`
abstracts `math.hypot`, constrained at the one value where it is applied. -/
theorem plan_approach_vector (cosF sinF sqrtF : ℚ → ℚ)
    (hx hy hz sx sy sz b preDist : ℚ) (br : Option ℚ)
    (hsq : sqrtF ((hx - sx) ^ 2 + (hy - sy) ^ 2) * sqrtF ((hx - sx) ^ 2 + (hy - sy) ^ 2)
      = (hx - sx) ^ 2 + (hy - sy) ^ 2)
    (hpos : 0 ≤ sqrtF ((hx - sx) ^ 2 + (hy - sy) ^ 2)) :
    approachNormal cosF sinF sqrtF (sx, sy, sz) ⟨(hx, hy, hz), some b⟩
      = (cosF b, sinF b, 0) ∧
    (¬(hx - sx = 0 ∧ hy - sy = 0) →
      0 < sqrtF ((hx - sx) ^ 2 + (hy - sy) ^ 2) ∧
      (approachNormal cosF sinF sqrtF (sx, sy, sz) ⟨(hx, hy, hz), none⟩).1 *
        sqrtF ((hx - sx) ^ 2 + (hy - sy) ^ 2) = hx - sx ∧
      (approachNormal cosF sinF sqrtF (sx, sy, sz) ⟨(hx, hy, hz), none⟩).2.1 *
        sqrtF ((hx - sx) ^ 2 + (hy - sy) ^ 2) = hy - sy ∧
      (approachNormal cosF sinF sqrtF (sx, sy, sz) ⟨(hx, hy, hz), none⟩).1 ^ 2 +
        (approachNormal cosF sinF sqrtF (sx, sy, sz) ⟨(hx, hy, hz), none⟩).2.1 ^ 2 = 1 ∧
      (approachNormal cosF sinF sqrtF (sx, sy, sz) ⟨(hx, hy, hz), none⟩).2.2 = 0) ∧
    ((hx - sx = 0 ∧ hy - sy = 0) →
      approachNormal cosF sinF sqrtF (sx, sy, sz) ⟨(hx, hy, hz), none⟩ = (0, 0, 0)) ∧
    routeEntryOf cosF sinF sqrtF (sx, sy, sz) preDist ⟨(hx, hy, hz), br⟩ =
      { hoop := ⟨(hx, hy, hz), br⟩
        pre_approach :=
          (hx - (approachNormal cosF sinF sqrtF (sx, sy, sz) ⟨(hx, hy, hz), br⟩).1 * preDist,
           hy - (approachNormal cosF sinF sqrtF (sx, sy, sz) ⟨(hx, hy, hz), br⟩).2.1 * preDist,
           hz)
        hoop_pos := (hx, hy, hz) } := by
  refine ⟨rfl, ?_, ?_, rfl⟩
  · intro hnz
    have hs : 0 < (hx - sx) ^ 2 + (hy - sy) ^ 2 := by
      rcases not_and_or.mp hnz with h | h
      · exact add_pos_of_pos_of_nonneg (pow_two_pos_of_ne_zero h) (sq_nonneg _)
      · exact add_pos_of_nonneg_of_pos (sq_nonneg _) (pow_two_pos_of_ne_zero h)
    have hne : sqrtF ((hx - sx) ^ 2 + (hy - sy) ^ 2) ≠ 0 := by
      intro h0
      rw [h0, mul_zero] at hsq
      exact absurd hsq.symm (ne_of_gt hs)
    have hd : 0 < sqrtF ((hx - sx) ^ 2 + (hy - sy) ^ 2) := lt_of_le_of_ne hpos (Ne.symm hne)
    refine ⟨hd, ?_, ?_, ?_, ?_⟩
    · simp only [approachNormal, if_neg hne]
      exact div_mul_cancel₀ _ hne
    · simp only [approachNormal, if_neg hne]
      exact div_mul_cancel₀ _ hne
    · simp only [approachNormal, if_neg hne]
      field_simp
      rw [sq (sqrtF ((hx - sx) ^ 2 + (hy - sy) ^ 2))]
      exact hsq.symm
    · simp only [approachNormal]
  · rintro ⟨h1, h2⟩
    have hs0 : (hx - sx) ^ 2 + (hy - sy) ^ 2 = 0 := by rw [h1, h2]; norm_num
    rw [hs0] at hsq
    have h0 : sqrtF 0 = 0 := mul_self_eq_zero.mp hsq
    simp only [approachNormal, hs0, h0, if_pos, h1, h2]
    norm_num

/-- A concrete stand-in for `math.cos` used by witnesses. -/
def cosStub (x : ℚ) : ℚ := x

/-- A concrete stand-in for `math.sin` used by witnesses. -/
def sinStub (x : ℚ) : ℚ := 1 - x

/-- A concrete stand-in for `math.hypot`, exact at 25, used by witnesses. -/
def sqrtStub (q : ℚ) : ℚ := if q = 25 then 5 else 0

/-- C4 witness: home `(0,0,0)`, hoop `(3,4,7)` with no bearing; the computed
approach normal `(3/5, 4/5, 0)` has unit length. -/
theorem plan_approach_vector_wit :
    (approachNormal cosStub sinStub sqrtStub (0, 0, 0) ⟨(3, 4, 7), none⟩).1 ^ 2 +
      (approachNormal cosStub sinStub sqrtStub (0, 0, 0) ⟨(3, 4, 7), none⟩).2.1 ^ 2 = 1 :=
  ((plan_approach_vector cosStub sinStub sqrtStub 3 4 7 0 0 0 1 10 none
      (by norm_num [sqrtStub]) (by norm_num [sqrtStub])).2.1
    (by norm_num)).2.2.2.1

/-! ### CenterInImage -/

/-- A vision detection as the mode reads it: a dict with optional keys
`ex`, `ey`, `radius`, `r`.  `none` models an absent key. -/
structure Det where
  ex : Option ℚ
  ey : Option ℚ
  radius : Option ℚ
  r : Option ℚ
deriving DecidableEq

/-- `d.get('ex', 0.0)`. -/
def exD (d : Det) : ℚ := d.ex.getD 0

/-- `d.get('ey', 0.0)`. -/
def eyD (d : Det) : ℚ := d.ey.getD 0

/-- `d.get('radius', d.get('r', 0.0))`. -/
def radiusD (d : Det) : ℚ := d.radius.getD (d.r.getD 0)

/-- The source's `clamp(v, lo, hi) = max(lo, min(hi, v))`. -/
def clamp (v lo hi : ℚ) : ℚ := max lo (min hi v)

/-- `CenterInImage.on_update` (source lines 42–67): with no detection, no
command is issued; otherwise the clamped proportional law on `dets[0]`
produces the `(vx, vy, vz, yaw_rate)` velocity setpoint.  `z_target` is held
equal to `curZ`, exactly as in the source; `vmax_yaw` is the mode's
radian-converted bound.  (The detection's radius is read but unused by
`on_update`.) -/
def centerOnUpdate (kx ky kz kyaw vmax_xy vmax_z vmax_yaw : ℚ) (curZ : ℚ)
    (dets : List Det) : Option (ℚ × ℚ × ℚ × ℚ) :=
  match dets with
  | [] => none
  | d :: _ =>
    let vx := clamp (-kx * exD d) (-vmax_xy) vmax_xy
    let vy := clamp (ky * eyD d) (-vmax_xy) vmax_xy
    let vz := clamp (kz * (curZ - curZ)) (-vmax_z) vmax_z
    let yaw_rate := clamp (kyaw * exD d) (-vmax_yaw) vmax_yaw
    some (vx, vy, vz, yaw_rate)

/-- `CenterInImage.check_status` (source lines 71–93): `"continue"` with no
detection; `"complete"` when centered within tolerance and within 15% of the
target radius; else `"complete"` when a start time was recorded and
`now - start > timeout_s`; else `"continue"`. -/
def centerCheckStatus (tol rt timeout : ℚ) (dets : List Det) (start : Option ℚ)
    (now : ℚ) : String :=
  match dets with
  | [] => "continue"
  | d :: _ =>
    if |exD d| ≤ tol ∧ |eyD d| ≤ tol ∧ |radiusD d - rt| ≤ 15 / 100 * rt then
      "complete"
    else
      match start with
      | none => "continue"
      | some s => if now - s > timeout then "complete" else "continue"

lemma abs_clamp_le (v m : ℚ) (hm : 0 ≤ m) : |clamp v (-m) m| ≤ m := by
  rw [abs_le]
  constructor
  · exact le_max_left _ _
  · exact max_le (by linarith) (min_le_left _ _)

/-- C2: whenever `CenterInImage.on_update` issues a command for a detection,
the outputs are clamped for any gain magnitudes: `|vx| ≤ vmax_xy`,
`|vy| ≤ vmax_xy`, `|yaw_rate| ≤ vmax_yaw`, assuming the bounds are
nonnegative. -/
theorem center_on_update_clamped (kx ky kz kyaw vmax_xy vmax_z vmax_yaw curZ : ℚ)
    (dets : List Det) (c : ℚ × ℚ × ℚ × ℚ)
    (hxy : 0 ≤ vmax_xy) (hyaw : 0 ≤ vmax_yaw)
    (hc : centerOnUpdate kx ky kz kyaw vmax_xy vmax_z vmax_yaw curZ dets = some c) :
    |c.1| ≤ vmax_xy ∧ |c.2.1| ≤ vmax_xy ∧ |c.2.2.2| ≤ vmax_yaw := by
  cases dets with
  | nil => exact absurd hc (by simp [centerOnUpdate])
  | cons d rest =>
    simp only [centerOnUpdate, Option.some.injEq] at hc
    subst hc
    exact ⟨abs_clamp_le _ _ hxy, abs_clamp_le _ _ hxy, abs_clamp_le _ _ hyaw⟩

/-- C2 witness: huge gains (1000) with `vmax_xy = 1`, `vmax_yaw = 1/2` and a
detection at pixel error `(5, 7)`: the issued command is clamped. -/
theorem center_on_update_clamped_wit :
    |((-1 : ℚ), (1 : ℚ), (0 : ℚ), (1 / 2 : ℚ)).1| ≤ (1 : ℚ) ∧
    |((-1 : ℚ), (1 : ℚ), (0 : ℚ), (1 / 2 : ℚ)).2.1| ≤ (1 : ℚ) ∧
    |((-1 : ℚ), (1 : ℚ), (0 : ℚ), (1 / 2 : ℚ)).2.2.2| ≤ (1 / 2 : ℚ) :=
  center_on_update_clamped 1000 1000 1 1000 1 1 (1 / 2) 0
    [⟨some 5, some 7, none, none⟩] ((-1 : ℚ), (1 : ℚ), (0 : ℚ), (1 / 2 : ℚ))
    (by norm_num) (by norm_num)
    (by norm_num [centerOnUpdate, clamp, exD, eyD])

/-- C3 (counterexample): with the default configuration (`tol = 8`,
`radius_target = 80`, `timeout_s = 12`), a start time of 0 and the clock at
100 — far past the timeout — a tick on which the Vision Provider returns no
detection yields `"continue"`, not `"complete"`: the no-detection early
return precedes the timeout check, so the timeout never fires on such
ticks. -/
theorem center_timeout_cex :
    centerCheckStatus 8 80 12 [] (some 0) 100 = "continue" ∧
    (100 : ℚ) - 0 > 12 ∧
    centerCheckStatus 8 80 12 [] (some 0) 100 ≠ "complete" := by
  refine ⟨rfl, by norm_num, ?_⟩
  intro h
  exact absurd h (by simp [centerCheckStatus])

/-- C3 (amended): on every tick with at least one detection, a recorded
start time and elapsed time exceeding the timeout, `check_status` returns
`"complete"`; on a tick with no detection it returns `"continue"` regardless
of elapsed time (the mission does not resolve a fully detection-less stall
through this timeout). -/
theorem center_timeout_complete (tol rt timeout : ℚ) (d : Det) (rest : List Det)
    (s now : ℚ) (st : Option ℚ) (h : now - s > timeout) :
    centerCheckStatus tol rt timeout (d :: rest) (some s) now = "complete" ∧
    centerCheckStatus tol rt timeout [] st now = "continue" := by
  constructor
  · by_cases hconv : |exD d| ≤ tol ∧ |eyD d| ≤ tol ∧ |radiusD d - rt| ≤ 15 / 100 * rt
    · simp [centerCheckStatus, hconv]
    · simp [centerCheckStatus, hconv, h]
  · rfl

/-- C3 witness: an off-center detection, start time 0, clock at 100,
timeout 12. -/
theorem center_timeout_complete_wit :
    centerCheckStatus 8 80 12 [⟨some 999, none, none, none⟩] (some 0) 100 = "complete" ∧
    centerCheckStatus 8 80 12 [] none 100 = "continue" :=
  center_timeout_complete 8 80 12 ⟨some 999, none, none, none⟩ [] 0 100 none
    (by norm_num)

/-! ### CommitTraverse -/

/-- `CommitTraverse.on_enter` (source lines 21–37): an empty route leaves
`start`/`end` unset (`none`); otherwise the segment endpoints are computed
from the front entry's `hoop_pos` and bearing (default normal `(0,1,0)`),
with `start = hoop_pos - normal·1.0` and `end = hoop_pos +
normal·traverse_dist`. -/
def commitOnEnter (cosF sinF : ℚ → ℚ) (tdist : ℚ) (route : List RouteEntry) :
    Option (Point × Point) :=
  match route with
  | [] => none
  | entry :: _ =>
    let n : Point :=
      match entry.hoop.bearing with
      | some b => (cosF b, sinF b, 0)
      | none => (0, 1, 0)
    some ((entry.hoop_pos.1 - n.1 * 1, entry.hoop_pos.2.1 - n.2.1 * 1, entry.hoop_pos.2.2),
          (entry.hoop_pos.1 + n.1 * tdist, entry.hoop_pos.2.1 + n.2.1 * tdist,
           entry.hoop_pos.2.2))

/-- `CommitTraverse.on_update` (source lines 39–44): publishes a position
setpoint at `end` when it is set, otherwise no command. -/
def commitOnUpdate (endPt : Option Point) : Option Point := endPt

/-- `CommitTraverse.check_status` (source lines 46–64), returning the status
string together with the (possibly updated) shared `planned_route` and
`hoops_traversed`.  `end` unset ⇒ `"complete"`; pose unavailable ⇒
`"continue"`; within 1.0 of `end` ⇒ pop `route[0]`, append it to the
traversed list and return `"complete"`; else `"continue"`.  The threshold
`math.dist(cur, end) <= 1.0` is rendered as `distSq cur end ≤ 1`. -/
def commitCheckStatus (endPt : Option Point) (pos : Option Point)
    (route traversed : List RouteEntry) : String × List RouteEntry × List RouteEntry :=
  match endPt with
  | none => ("complete", route, traversed)
  | some e =>
    match pos with
    | none => ("continue", route, traversed)
    | some p =>
      if distSq p e ≤ 1 then
        match route with
        | [] => ("complete", route, traversed)
        | r :: rest => ("complete", rest, traversed ++ [r])
      else ("continue", route, traversed)

/-- C5: whenever `CommitTraverse.check_status` returns `"complete"` with the
traverse endpoint set and a non-empty route, the pop/append pair happens as
one atomic step: the former front entry becomes the last element of the
traversed list, the route shrinks by exactly one (to its tail) and the
traversed list grows by exactly one, no entry lost or duplicated. -/
theorem commit_pop_append (e p : Point) (route traversed : List RouteEntry)
    (hne : route ≠ [])
    (hc : (commitCheckStatus (some e) (some p) route traversed).1 = "complete") :
    (commitCheckStatus (some e) (some p) route traversed).2.1 = route.tail ∧
    (commitCheckStatus (some e) (some p) route traversed).2.2
      = traversed ++ [route.head hne] ∧
    route.length = (commitCheckStatus (some e) (some p) route traversed).2.1.length + 1 ∧
    (commitCheckStatus (some e) (some p) route traversed).2.2.length
      = traversed.length + 1 := by
  cases route with
  | nil => exact absurd rfl hne
  | cons r rest =>
    by_cases hd : distSq p e ≤ 1
    · simp [commitCheckStatus, hd]
    · exact absurd hc (by simp [commitCheckStatus, hd])

/-- C5 witness: pose at the traverse end point, a one-entry route and an
empty traversed list. -/
theorem commit_pop_append_wit :
    (commitCheckStatus (some (0, 0, 0)) (some (0, 0, 0))
        [⟨⟨(1, 2, 3), none⟩, (4, 5, 6), (1, 2, 3)⟩] []).2.1 = [] ∧
    (commitCheckStatus (some (0, 0, 0)) (some (0, 0, 0))
        [⟨⟨(1, 2, 3), none⟩, (4, 5, 6), (1, 2, 3)⟩] []).2.2
      = [⟨⟨(1, 2, 3), none⟩, (4, 5, 6), (1, 2, 3)⟩] := by
  have h := commit_pop_append (0, 0, 0) (0, 0, 0)
    [⟨⟨(1, 2, 3), none⟩, (4, 5, 6), (1, 2, 3)⟩] []
    (by simp) (by norm_num [commitCheckStatus, distSq])
  exact ⟨h.1, h.2.1⟩

/-- C10: whenever `CommitTraverse.check_status` returns `"continue"` — in
particular when the pose is unavailable or the pose is farther than the
tolerance from the end point — the shared route and traversed list are
returned unchanged. -/
theorem commit_continue_frame (endPt pos : Option Point)
    (route traversed : List RouteEntry)
    (hc : (commitCheckStatus endPt pos route traversed).1 = "continue") :
    (commitCheckStatus endPt pos route traversed).2.1 = route ∧
    (commitCheckStatus endPt pos route traversed).2.2 = traversed := by
  cases endPt with
  | none => exact absurd hc (by simp [commitCheckStatus])
  | some e =>
    cases pos with
    | none => simp [commitCheckStatus]
    | some p =>
      by_cases hd : distSq p e ≤ 1
      · cases route with
        | nil => simp [commitCheckStatus, hd]
        | cons r rest => exact absurd hc (by simp [commitCheckStatus, hd])
      · simp [commitCheckStatus, hd]

/-- C10 witness: pose unavailable with a pending route entry — status is
`"continue"` and route and traversed list are unchanged. -/
theorem commit_continue_frame_wit :
    (commitCheckStatus (some (9, 9, 9)) none
        [⟨⟨(1, 2, 3), none⟩, (4, 5, 6), (1, 2, 3)⟩] []).2.1
      = [⟨⟨(1, 2, 3), none⟩, (4, 5, 6), (1, 2, 3)⟩] ∧
    (commitCheckStatus (some (9, 9, 9)) none
        [⟨⟨(1, 2, 3), none⟩, (4, 5, 6), (1, 2, 3)⟩] []).2.2 = [] :=
  commit_continue_frame (some (9, 9, 9)) none
    [⟨⟨(1, 2, 3), none⟩, (4, 5, 6), (1, 2, 3)⟩] [] rfl

/-! ### LaunchAndScan -/

/-- The home-pose commit guard of `LaunchAndScan.check_status` (source lines
129–133): `if not uav.home_pose and self.home_pose: uav.home_pose =
self.home_pose` (an absent/None shared home pose is `none`; a captured tuple
is always truthy). -/
def commitHome (uavHome selfHome : Option Point) : Option Point :=
  match uavHome, selfHome with
  | none, some h => some h
  | u, _ => u

/-- `LaunchAndScan.check_status` (source lines 126–150), returning the
status and the shared context's home pose after the call: `"complete"` when
the collected-detection count reaches `min_hoops_to_stop` (committing the
enter-time home pose if the shared one is unset), else `"complete"` when
`scanned_deg` has reached `spin_max_deg` (no home-pose commit), else
`"continue"`. -/
def launchCheckStatus (minHoops : Int) (spinMax : ℚ) (collected : List Det)
    (scanned : ℚ) (selfHome uavHome : Option Point) : String × Option Point :=
  if (collected.length : Int) ≥ minHoops then
    ("complete", commitHome uavHome selfHome)
  else if scanned ≥ spinMax then
    ("complete", uavHome)
  else
    ("continue", uavHome)

/-- C7: `LaunchAndScan.check_status` returns `"complete"` exactly when the
accumulated-detection count reaches the configured minimum or the
accumulated scanned degrees reach the configured maximum sweep; otherwise it
returns `"continue"`. -/
theorem launch_complete_iff (minHoops : Int) (spinMax : ℚ) (collected : List Det)
    (scanned : ℚ) (selfHome uavHome : Option Point) :
    (launchCheckStatus minHoops spinMax collected scanned selfHome uavHome).1
        = "complete" ↔
      ((collected.length : Int) ≥ minHoops ∨ scanned ≥ spinMax) := by
  by_cases h1 : (collected.length : Int) ≥ minHoops
  · simp [launchCheckStatus, h1]
  · by_cases h2 : scanned ≥ spinMax
    · simp [launchCheckStatus, h1, h2]
    · simp [launchCheckStatus, h1, h2]

/-- C8 (counterexample): `min_hoops_to_stop = 3`, `spin_max_deg = 360`, no
detections, 360° scanned, a pose `(1,2,3)` captured at enter time and no
home pose in the shared context: the mode completes via the sweep-exhausted
branch, yet the shared home pose stays unset, contradicting the claim that
either termination condition commits it. -/
theorem launch_home_cex :
    launchCheckStatus 3 360 [] 360 (some (1, 2, 3)) none = ("complete", none) ∧
    (none : Option Point) ≠ some (1, 2, 3) := by
  constructor
  · norm_num [launchCheckStatus]
  · simp

/-- C8 (amended): completing via the detection-count condition commits the
enter-time pose whenever the shared context holds no home pose and a pose
was captured at enter time (`commitHome`); completing via the sweep-exhausted
condition (count below minimum) leaves the shared home pose unchanged. -/
theorem launch_home_amended (minHoops : Int) (spinMax : ℚ) (collected : List Det)
    (scanned : ℚ) (selfHome uavHome : Option Point) :
    ((collected.length : Int) ≥ minHoops →
      launchCheckStatus minHoops spinMax collected scanned selfHome uavHome
        = ("complete", commitHome uavHome selfHome)) ∧
    (¬(collected.length : Int) ≥ minHoops → scanned ≥ spinMax →
      launchCheckStatus minHoops spinMax collected scanned selfHome uavHome
        = ("complete", uavHome)) := by
  constructor
  · intro h1
    simp [launchCheckStatus, h1]
  · intro h1 h2
    simp [launchCheckStatus, h1, h2]

/-- C8 witness: one detection with minimum 1 commits the enter-time pose
into the unset shared home pose; with minimum 3 and the sweep exhausted the
shared home pose stays unset. -/
theorem launch_home_amended_wit :
    launchCheckStatus 1 360 [⟨some 1, none, none, none⟩] 10 (some (1, 2, 3)) none
      = ("complete", some (1, 2, 3)) ∧
    launchCheckStatus 3 360 [] 360 (some (1, 2, 3)) none = ("complete", none) := by
  constructor
  · have h := (launch_home_amended 1 360 [⟨some 1, none, none, none⟩] 10
      (some (1, 2, 3)) none).1 (by norm_num)
    simpa [commitHome] using h
  · exact (launch_home_amended 3 360 [] 360 (some (1, 2, 3)) none).2
      (by norm_num) (by norm_num)

/-! ### GoToPreApproach -/

/-- `GoToPreApproach.on_enter` (source lines 24–32): an empty route clears
the target (and leaves the cached hoop unset); otherwise the front entry's
pre-approach point and hoop record are cached. -/
def gotoOnEnter (route : List RouteEntry) : Option Point × Option Hoop :=
  match route with
  | [] => (none, none)
  | entry :: _ => (some entry.pre_approach, some entry.hoop)

/-- `GoToPreApproach.on_update` (source lines 34–49): no command without a
target; otherwise a position setpoint at the target, with the cached hoop's
bearing as desired yaw when present. -/
def gotoOnUpdate (target : Option Point) (targetHoop : Option Hoop) :
    Option (Point × Option ℚ) :=
  match target with
  | none => none
  | some t =>
    match targetHoop with
    | some h =>
      match h.bearing with
      | some b => some (t, some b)
      | none => some (t, none)
    | none => some (t, none)

/-- `GoToPreApproach.check_status` (source lines 51–61): `"complete"`
without a target; `"continue"` without a pose; else `"complete"` within the
waypoint tolerance (`distSq ≤ tol²` models `math.dist ≤ tol` for the
nonnegative configured tolerance). -/
def gotoCheckStatus (target pos : Option Point) (tol : ℚ) : String :=
  match target with
  | none => "complete"
  | some t =>
    match pos with
    | none => "continue"
    | some p => if distSq p t ≤ tol ^ 2 then "complete" else "continue"

/-- C9: a mode activated with an empty planned route (for `PlanRoute`, an
empty hoop input) reports `"complete"` on the first status check after enter
and issues no vehicle command on update: `GoToPreApproach` clears its
target, `CommitTraverse` leaves its endpoint unset, and `PlanRoute` writes
an empty route, always reports `"complete"` and never commands. -/
theorem empty_route_completes (pos : Option Point) (tol tdist preDist : ℚ)
    (cosF sinF sqrtF : ℚ → ℚ) (maxT : Nat) (th : Option Hoop)
    (traversed : List RouteEntry) (cur home : Option Point) :
    gotoOnEnter [] = (none, none) ∧
    gotoCheckStatus none pos tol = "complete" ∧
    gotoOnUpdate none th = none ∧
    commitOnEnter cosF sinF tdist [] = none ∧
    (commitCheckStatus none pos [] traversed).1 = "complete" ∧
    commitOnUpdate none = none ∧
    planRouteOnEnter cosF sinF sqrtF maxT preDist [] [] cur home = [] ∧
    planRouteCheckStatus = "complete" ∧
    planRouteOnUpdate = none := by
  refine ⟨rfl, rfl, rfl, rfl, rfl, rfl, ?_, rfl, rfl⟩
  cases maxT with
  | zero => rfl
  | succ m => rfl
